import Mathlib

/-!
Verification development for the download-toolbox acquisition engine.

The definitions below are shallow embeddings of the Python source:

* `Frequency` with its integer values embeds `download_toolbox/time.py`
  (an `int`-valued enum, compared by its integer values).
* `datasetConfigInit` embeds the validation checks of
  `DatasetConfig.__init__` in `download_toolbox/dataset.py`.
* `sortByKey`, `batchLoop`, `batch_requested_dates` embed
  `batch_requested_dates` in `download_toolbox/data/utils.py`.
* `merge_files` / `save_data_merge` embed `merge_files` in
  `download_toolbox/data/utils.py` and its call from
  `DatasetConfig.save_data_for_config`.
* `var_filepaths` / `filter_extant_data` embed the corresponding methods of
  `DatasetConfig` in `download_toolbox/dataset.py`.
* `threaded_download_collect` embeds the result-collection loop of
  `ThreadedDownloader.download` in `download_toolbox/download.py`.
-/

namespace DownloadToolbox

/-- Embeds `Frequency` from `download_toolbox/time.py`: an `int`-backed enum
with `YEAR = 1`, `MONTH = 2`, `DAY = 3`, `HOUR = 4`. -/
inductive Frequency where
  | YEAR
  | MONTH
  | DAY
  | HOUR
  deriving DecidableEq, Repr

/-- The integer value carried by each `Frequency` member (the first element of
each enum tuple in `time.py`). -/
def Frequency.value : Frequency → Nat
  | .YEAR => 1
  | .MONTH => 2
  | .DAY => 3
  | .HOUR => 4

/-- The comparison `a < b` on `Frequency`: the class derives from `int`, so
Python compares the members by their integer values. -/
def Frequency.ltb (a b : Frequency) : Bool := a.value < b.value

/-- The comparison `a > b` on `Frequency`, again by integer value. -/
def Frequency.gtb (a b : Frequency) : Bool := b.value < a.value

/-- The comparison `a == b` on `Frequency` by integer value (the values are
pairwise distinct, so this agrees with member identity). -/
def Frequency.eqb (a b : Frequency) : Bool := a.value == b.value

/-- Errors raised by the toolbox.  `DataSetError` is the class defined at the
bottom of `download_toolbox/dataset.py` and raised by `DatasetConfig.__init__`;
`DataCollectionError` comes from `download_toolbox/base.py`;
`ConfigError` is the class name used by the specification for construction
failures — no class of that name exists anywhere in the source. -/
inductive DTError where
  | DataSetError (msg : String)
  | DataCollectionError (msg : String)
  | ConfigError (msg : String)
  deriving DecidableEq, Repr

/-- Embeds the validation checks of `DatasetConfig.__init__`
(`download_toolbox/dataset.py`, lines 70-81), in source order:
empty variable list, level/variable length mismatch, output grouping finer
than storage frequency (`self._frequency < self._output_group_by` on the
int enum), and storage frequency outside `valid_frequencies`. -/
def datasetConfigInit (var_names : List String) (levels : List (Option (List Int)))
    (frequency output_group_by : Frequency) (valid_frequencies : List Frequency) :
    Except DTError Unit :=
  if var_names.length < 1 then
    .error (.DataSetError "No variables requested")
  else if levels.length ≠ var_names.length then
    .error (.DataSetError "# of levels must match # vars")
  else if frequency.ltb output_group_by then
    .error (.DataSetError "You can't request a higher output frequency than request frequency")
  else if ¬ (frequency ∈ valid_frequencies) then
    .error (.DataSetError "Only the following frequencies are valid for request")
  else
    .ok ()

/-- Stable insertion by a `Nat`-valued key: the new element is placed before
the first existing element whose key is not smaller, so elements with equal
keys keep their relative order.  Used to embed Python's stable `sorted` and
xarray's `sortby` (which uses a stable argsort). -/
def insertByKey {α : Type} (key : α → Nat) (a : α) : List α → List α
  | [] => [a]
  | b :: l => if key b < key a then b :: insertByKey key a l else a :: b :: l

/-- Stable sort by a `Nat`-valued key (insertion sort). -/
def sortByKey {α : Type} (key : α → Nat) : List α → List α
  | [] => []
  | a :: l => insertByKey key a (sortByKey key l)

/-- Embeds the `while len(dates)` loop of `batch_requested_dates`
(`download_toolbox/data/utils.py`, lines 33-42).  `dates` is the deque of
remaining sorted dates, `batch` the current batch in reverse order (so its
head is Python's `batch[-1]`), `acc` the `batched_dates` accumulator.  On an
attribute mismatch the batch is flushed and the date is *not* consumed, just
as in the source.  Returns the loop-exit state
`(remaining dates, batch, batched_dates)`. -/
def batchLoop (attr : Nat → Nat) :
    List Nat → List Nat → List (List Nat) → List Nat × List Nat × List (List Nat)
  | [], batch, acc => ([], batch, acc)
  | d :: rest, [], acc => batchLoop attr rest [d] acc
  | d :: rest, b :: bs, acc =>
    if attr b = attr d then
      batchLoop attr rest (d :: b :: bs) acc
    else
      batchLoop attr (d :: rest) [] (acc ++ [(b :: bs).reverse])
  termination_by dates batch _ => 2 * dates.length + (if batch = [] then 0 else 1)
  decreasing_by
    all_goals simp
    all_goals omega

/-- Embeds `batch_requested_dates` (`download_toolbox/data/utils.py`,
lines 14-51): sort the incoming dates, run the batching loop, flush a trailing
non-empty batch, and raise `RuntimeError("Batching didn't work!")` if any
dates remain unconsumed. -/
def batch_requested_dates (attr : Nat → Nat) (dates : List Nat) :
    Except String (List (List Nat)) :=
  let sorted_dates := sortByKey id dates
  let (remaining, batch, batched_dates) := batchLoop attr sorted_dates [] []
  let batched_dates :=
    if batch.length ≠ 0 then batched_dates ++ [batch.reverse] else batched_dates
  if remaining.length > 0 then
    .error "Batching did not work!"
  else
    .ok batched_dates

/-- A time-indexed data file: a list of (timestamp, value) pairs, the order
being the order of the time coordinate in the file. -/
abbrev TimeSeries := List (Nat × Int)

/-- The time coordinate of a series. -/
def tsTimes (l : TimeSeries) : List Nat := l.map Prod.fst

/-- The value stored at timestamp `t`: the first entry with that time, as
selection by label on the time coordinate returns. -/
def tsFind (t : Nat) (l : TimeSeries) : Option (Nat × Int) :=
  l.find? (fun x => x.1 == t)

/-- Embeds `drop_duplicates("time", keep="first")`: keep each entry whose
timestamp has not occurred earlier; `seen` is the set of times already kept. -/
def dropDupKeepFirst : TimeSeries → List Nat → TimeSeries
  | [], _ => []
  | a :: l, seen =>
    if a.1 ∈ seen then dropDupKeepFirst l seen
    else a :: dropDupKeepFirst l (a.1 :: seen)

/-- Embeds `merge_files(new_datafile, other_datafile)`
(`download_toolbox/data/utils.py`, lines 54-89) in terms of file contents:
`d1` is the content found at `new_datafile` (renamed to `new.<name>` and
opened), `d2` the content at `other_datafile`, and the written result is
`xr.concat([d2, d1], dim="time").sortby("time").drop_duplicates("time",
keep="first")` — concatenation `d2 ++ d1`, stable sort by time, keep the
first occurrence of each timestamp. -/
def merge_files (new_datafile other_datafile : TimeSeries) : TimeSeries :=
  dropDupKeepFirst (sortByKey Prod.fst (other_datafile ++ new_datafile)) []

/-- Embeds the merge call in `DatasetConfig.save_data_for_config`
(`download_toolbox/dataset.py`, lines 292-301): when `destination_path`
exists, the fresh group is written to a temporary file and
`merge_files(destination_path, temporary_name)` is invoked, so the *existing*
canonical content is passed as `new_datafile` and the *newly written* slice as
`other_datafile`. -/
def save_data_merge (existing newly_written : TimeSeries) : TimeSeries :=
  merge_files existing newly_written

/-- Inventory map of the catalog (`DatasetConfig._var_files`): an insertion
ordered association of composite variable name to recorded file paths.
Paths are abstracted as naturals. -/
abbrev VarFiles := List (String × List Nat)

/-- Dictionary lookup on the inventory map. -/
def varFilesGet (name : String) : VarFiles → Option (List Nat)
  | [] => none
  | (k, v) :: rest => if k = name then some v else varFilesGet name rest

/-- Dictionary update on the inventory map: replace the value at an existing
key, else append the new key (Python dict insertion order). -/
def varFilesSet (name : String) (v : List Nat) : VarFiles → VarFiles
  | [] => [(name, v)]
  | (k, w) :: rest =>
    if k = name then (name, v) :: rest else (k, w) :: varFilesSet name v rest

/-- Embeds `DatasetConfig.var_filepaths` (`download_toolbox/dataset.py`,
lines 331-358) for the non-`single_only` call: `output_filepaths` is the
deduplicated list of per-date canonical paths
(`os.path.join(var_config.path, date.strftime(...output group format...))`,
abstracted as `pathOf`), and `self._var_files[var_config.name]` is updated to
the deduplicated union of the previously recorded paths and the new ones (or
set to the new ones when the key is absent).  Returns the updated inventory
and `output_filepaths`. -/
def var_filepaths (pathOf : Nat → Nat) (var_files : VarFiles) (name : String)
    (date_batch : List Nat) : VarFiles × List Nat :=
  let output_filepaths := (date_batch.map pathOf).dedup
  let var_files' :=
    match varFilesGet name var_files with
    | some old => varFilesSet name ((old ++ output_filepaths).dedup) var_files
    | none => varFilesSet name output_filepaths var_files
  (var_files', output_filepaths)

/-- Embeds `DatasetConfig.filter_extant_data` (`download_toolbox/dataset.py`,
lines 139-162).  The filesystem is `fs : path → Option (list of time values)`
(`none` when the file does not exist, otherwise the time coordinate of the
dataset stored there).  The method sorts the dates descending, computes the
candidate paths via `var_filepaths` (mutating the inventory), collects the
extant paths, and if any exist subtracts the union of their time values from
the date set and returns it re-sorted descending; otherwise it returns the
descending dates unchanged.  Returns (updated inventory, filtered dates). -/
def filter_extant_data (pathOf : Nat → Nat) (fs : Nat → Option (List Nat))
    (var_files : VarFiles) (name : String) (dates : List Nat) :
    VarFiles × List Nat :=
  let dt_arr := (sortByKey id dates).reverse
  let (var_files', filepaths) := var_filepaths pathOf var_files name dt_arr
  let extant_paths := (filepaths.filter (fun p => (fs p).isSome)).dedup
  if extant_paths.length > 0 then
    let exclude_dates := (extant_paths.map (fun p => (fs p).getD [])).flatten
    let dt_arr' :=
      (sortByKey id ((dt_arr.dedup).filter (fun d => d ∉ exclude_dates))).reverse
    (var_files', dt_arr')
  else
    (var_files', dt_arr)

/-- The outcome of one dispatched work unit as seen by the collection loop of
`ThreadedDownloader.download` (`download_toolbox/download.py`, lines 201-212):
`future.result()` either re-raises the unit's exception or returns the fetch
operation's result, which is `None` or a list of downloaded file paths. -/
abbrev UnitResult := Except String (Option (List String))

/-- Embeds the `as_completed` collection loop of `ThreadedDownloader.download`:
each completed future's result is appended to `self._files_downloaded` when it
is a non-`None` list, a `None` result is only logged, and an exception from
`future.result()` is caught and logged, never re-raised.  The whole loop is
embedded in `Except` so that an uncaught unit exception would surface as
`.error`; the `try/except` of the source is the `.error` branch below. -/
def threaded_download_collect (results : List UnitResult)
    (files_downloaded : List String) : Except String (List String) :=
  .ok <| results.foldl
    (fun acc r =>
      match r with
      | .ok (some files) => acc ++ files
      | .ok none => acc
      | .error _ => acc)
    files_downloaded

/-! ### Lemmas about the stable key sort -/

theorem insertByKey_perm {α : Type} (key : α → Nat) (a : α) (l : List α) :
    (insertByKey key a l).Perm (a :: l) := by
  induction l with
  | nil => simp [insertByKey]
  | cons b l ih =>
    simp only [insertByKey]
    split
    · exact ((ih.cons b).trans (List.Perm.swap a b l))
    · exact List.Perm.refl _

theorem sortByKey_perm {α : Type} (key : α → Nat) (l : List α) :
    (sortByKey key l).Perm l := by
  induction l with
  | nil => simp [sortByKey]
  | cons a l ih =>
    simpa [sortByKey] using (insertByKey_perm key a (sortByKey key l)).trans (ih.cons a)

theorem mem_sortByKey {α : Type} {key : α → Nat} {l : List α} {x : α} :
    x ∈ sortByKey key l ↔ x ∈ l :=
  (sortByKey_perm key l).mem_iff

theorem pairwise_insertByKey {α : Type} {key : α → Nat} {a : α} {l : List α}
    (h : l.Pairwise (fun x y => key x ≤ key y)) :
    (insertByKey key a l).Pairwise (fun x y => key x ≤ key y) := by
  induction l with
  | nil => simp [insertByKey]
  | cons b l ih =>
    simp only [insertByKey]
    rcases h with - | ⟨hb, hl⟩
    split
    · refine List.Pairwise.cons (fun x hx => ?_) (ih hl)
      rcases List.mem_cons.mp ((insertByKey_perm key a l).mem_iff.mp hx) with rfl | hx
      · omega
      · exact hb x hx
    · refine List.Pairwise.cons (fun x hx => ?_) (List.Pairwise.cons hb hl)
      rcases List.mem_cons.mp hx with rfl | hx
      · omega
      · exact le_trans (by omega) (hb x hx)

theorem pairwise_sortByKey {α : Type} (key : α → Nat) (l : List α) :
    (sortByKey key l).Pairwise (fun x y => key x ≤ key y) := by
  induction l with
  | nil => simp [sortByKey]
  | cons a l ih => exact pairwise_insertByKey ih

theorem sortByKey_id_pairwise (l : List Nat) :
    (sortByKey id l).Pairwise (· ≤ ·) :=
  pairwise_sortByKey id l

/-- Two lists that are permutations of each other and both weakly sorted by
`id` are equal, so sorting any permutation of an already sorted list of
naturals returns that sorted list. -/
theorem sortByKey_id_eq_of_sorted {l s : List Nat} (hp : l.Perm s)
    (hs : s.Pairwise (· ≤ ·)) : sortByKey id l = s :=
  List.eq_of_perm_of_sorted ((sortByKey_perm id l).trans hp)
    (sortByKey_id_pairwise l) hs

theorem filter_insertByKey {α : Type} (key : α → Nat) (t : Nat) (a : α) (l : List α) :
    (insertByKey key a l).filter (fun x => key x == t) =
      if key a = t then a :: l.filter (fun x => key x == t)
      else l.filter (fun x => key x == t) := by
  induction l with
  | nil =>
    by_cases h : key a = t <;> simp [insertByKey, List.filter_cons, h]
  | cons b l ih =>
    simp only [insertByKey]
    split
    · rename_i hba
      by_cases h : key a = t
      · have hb : ¬ (key b = t) := by omega
        simp [List.filter_cons, hb, ih, h]
      · simp [List.filter_cons, ih, h]
    · by_cases h : key a = t <;> simp [List.filter_cons, h]

/-- Stability of the key sort: the subsequence of elements whose key equals a
fixed `t` is unchanged by sorting. -/
theorem filter_sortByKey {α : Type} (key : α → Nat) (t : Nat) (l : List α) :
    (sortByKey key l).filter (fun x => key x == t) =
      l.filter (fun x => key x == t) := by
  induction l with
  | nil => simp [sortByKey]
  | cons a l ih =>
    simp only [sortByKey, filter_insertByKey, ih]
    by_cases h : key a = t <;> simp [List.filter_cons, h]

theorem find?_eq_head?_filter {α : Type} (p : α → Bool) (l : List α) :
    l.find? p = (l.filter p).head? := by
  induction l with
  | nil => simp
  | cons a l ih =>
    by_cases h : p a
    · rw [List.find?_cons_of_pos _ h, List.filter_cons_of_pos h, List.head?_cons]
    · rw [List.find?_cons_of_neg _ h, List.filter_cons_of_neg h, ih]

theorem find?_sortByKey {α : Type} (key : α → Nat) (t : Nat) (l : List α) :
    (sortByKey key l).find? (fun x => key x == t) = l.find? (fun x => key x == t) := by
  rw [find?_eq_head?_filter, find?_eq_head?_filter, filter_sortByKey]

/-! ### Lemmas about duplicate-timestamp dropping -/

theorem find?_dropDupKeepFirst (l : TimeSeries) (seen : List Nat) (t : Nat)
    (ht : t ∉ seen) :
    (dropDupKeepFirst l seen).find? (fun x => x.1 == t) =
      l.find? (fun x => x.1 == t) := by
  induction l generalizing seen with
  | nil => simp [dropDupKeepFirst]
  | cons a l ih =>
    simp only [dropDupKeepFirst]
    split
    · rename_i hseen
      have hne : ¬ a.1 = t := fun hh => ht (hh ▸ hseen)
      rw [ih seen ht]
      simp [hne]
    · rename_i hseen
      by_cases h : a.1 = t
      · simp [h]
      · have ht' : t ∉ a.1 :: seen := by
          intro hmem
          rcases List.mem_cons.mp hmem with rfl | hmem
          · exact h rfl
          · exact ht hmem
        have hb : (a.1 == t) = false := by simpa using h
        simp only [List.find?_cons, hb]
        exact ih _ ht'

theorem sublist_dropDupKeepFirst (l : TimeSeries) (seen : List Nat) :
    (dropDupKeepFirst l seen).Sublist l := by
  induction l generalizing seen with
  | nil => simp [dropDupKeepFirst]
  | cons a l ih =>
    simp only [dropDupKeepFirst]
    split
    · exact (ih seen).trans (List.sublist_cons_self a l)
    · exact (ih (a.1 :: seen)).cons₂ a

theorem mem_times_dropDupKeepFirst {l : TimeSeries} {seen : List Nat} {t : Nat} :
    t ∈ tsTimes (dropDupKeepFirst l seen) ↔ t ∈ tsTimes l ∧ t ∉ seen := by
  induction l generalizing seen with
  | nil => simp [dropDupKeepFirst, tsTimes]
  | cons a l ih =>
    simp only [dropDupKeepFirst]
    split
    · rename_i hseen
      simp only [tsTimes, List.map_cons, List.mem_cons] at *
      rw [ih]
      constructor
      · rintro ⟨h1, h2⟩
        exact ⟨Or.inr h1, h2⟩
      · rintro ⟨h1 | h1, h2⟩
        · exact absurd (h1 ▸ hseen) h2
        · exact ⟨h1, h2⟩
    · rename_i hseen
      simp only [tsTimes, List.map_cons, List.mem_cons] at *
      rw [ih]
      constructor
      · rintro (rfl | ⟨h1, h2⟩)
        · exact ⟨Or.inl rfl, hseen⟩
        · exact ⟨Or.inr h1, fun hmem => h2 (List.mem_cons_of_mem _ hmem)⟩
      · rintro ⟨rfl | h1, h2⟩
        · exact Or.inl rfl
        · by_cases hat : t = a.1
          · exact Or.inl hat
          · exact Or.inr ⟨h1, by simp [hat, h2]⟩

theorem nodup_times_dropDupKeepFirst (l : TimeSeries) (seen : List Nat) :
    (tsTimes (dropDupKeepFirst l seen)).Nodup := by
  induction l generalizing seen with
  | nil => simp [dropDupKeepFirst, tsTimes]
  | cons a l ih =>
    simp only [dropDupKeepFirst]
    split
    · exact ih seen
    · simp only [tsTimes, List.map_cons, List.nodup_cons]
      refine ⟨fun hmem => ?_, ih (a.1 :: seen)⟩
      exact (mem_times_dropDupKeepFirst.mp hmem).2 (List.mem_cons_self a.1 seen)

/-! ### Claim C1: duplicate-timestamp resolution in the consolidation merge -/

/-- C1 (counterexample): the claim says that when `save_data_for_config`
merges a freshly written slice into an existing canonical file, overlapping
timestamps retain the existing/original value.  In the code,
`merge_files(destination_path, temporary_name)` opens the *existing* file as
`d1` and the *newly written* temporary as `d2`, concatenates `[d2, d1]`, and
keeps the first occurrence — so the newly written value wins.  With existing
content `[(0, 1)]` and newly written content `[(0, 2)]` the merged file is
`[(0, 2)]`: the just-written value `2`, not the original `1`. -/
theorem C1_counterexample :
    save_data_merge [(0, 1)] [(0, 2)] = [(0, 2)] ∧
      tsFind 0 (save_data_merge [(0, 1)] [(0, 2)]) = some (0, 2) ∧
      ¬ tsFind 0 (save_data_merge [(0, 1)] [(0, 2)]) = some (0, 1) := by
  refine ⟨rfl, rfl, by decide⟩

/-- C1 (amended): when the File Consolidator merges a freshly written temporal
slice into an existing canonical file, the concatenation along time places the
newly written data *before* the existing data, and duplicate-timestamp
resolution keeps the first occurrence, so for every timestamp present in the
newly written file the merged file retains the *just-written* value, not the
existing one. -/
theorem C1_merge_prefers_newly_written (existing newly_written : TimeSeries)
    (t : Nat) (ht : t ∈ tsTimes newly_written) :
    tsFind t (save_data_merge existing newly_written) = tsFind t newly_written := by
  unfold save_data_merge merge_files tsFind
  rw [find?_dropDupKeepFirst _ _ _ (by simp), find?_sortByKey Prod.fst t,
    List.find?_append]
  have hsome : (newly_written.find? (fun x => x.1 == t)).isSome := by
    rw [List.find?_isSome]
    obtain ⟨x, hx, hfst⟩ := List.mem_map.mp ht
    exact ⟨x, hx, by simp [hfst]⟩
  obtain ⟨v, hv⟩ := Option.isSome_iff_exists.mp hsome
  rw [hv]
  rfl

/-- Witness for `C1_merge_prefers_newly_written` at a concrete overlap. -/
theorem C1_merge_prefers_newly_written_witness :
    tsFind 0 (save_data_merge [(0, 1), (1, 5)] [(0, 3)]) = tsFind 0 [(0, 3)] :=
  C1_merge_prefers_newly_written [(0, 1), (1, 5)] [(0, 3)] 0 (by decide)

/-! ### Claim C9: merge round-trip -/

/-- C9: merging an existing canonical file `A` with a newly consolidated slice
`B` yields a file whose time coordinate is strictly increasing (sorted with no
duplicate timestamps) and whose set of timestamps is exactly the union of the
timestamps of `A` and `B`. -/
theorem C9_merge_round_trip (A B : TimeSeries) :
    (tsTimes (save_data_merge A B)).Pairwise (· < ·) ∧
      ∀ t, t ∈ tsTimes (save_data_merge A B) ↔ (t ∈ tsTimes A ∨ t ∈ tsTimes B) := by
  constructor
  · have hsub : (save_data_merge A B).Sublist (sortByKey Prod.fst (B ++ A)) :=
      sublist_dropDupKeepFirst _ _
    have hle : (tsTimes (save_data_merge A B)).Pairwise (· ≤ ·) := by
      have hpw := (pairwise_sortByKey Prod.fst (B ++ A)).sublist hsub
      exact List.pairwise_map.mpr hpw
    have hnd : (tsTimes (save_data_merge A B)).Nodup :=
      nodup_times_dropDupKeepFirst _ _
    exact (hle.and hnd).imp (fun hab => lt_of_le_of_ne hab.1 hab.2)
  · intro t
    show t ∈ tsTimes (dropDupKeepFirst (sortByKey Prod.fst (B ++ A)) []) ↔ _
    rw [mem_times_dropDupKeepFirst]
    simp only [tsTimes, List.mem_map, List.not_mem_nil, not_false_iff, and_true]
    constructor
    · rintro ⟨x, hx, rfl⟩
      rcases List.mem_append.mp (mem_sortByKey.mp hx) with hB | hA
      · exact Or.inr ⟨x, hB, rfl⟩
      · exact Or.inl ⟨x, hA, rfl⟩
    · rintro (⟨x, hx, rfl⟩ | ⟨x, hx, rfl⟩)
      · exact ⟨x, mem_sortByKey.mpr (List.mem_append.mpr (Or.inr hx)), rfl⟩
      · exact ⟨x, mem_sortByKey.mpr (List.mem_append.mpr (Or.inl hx)), rfl⟩

/-! ### Claim C2: Frequency comparison ordering -/

/-- C2 (counterexample): the claim states that the implemented comparison
orders `YEAR > MONTH > DAY > HOUR`.  The enum derives from `int` with
`YEAR = 1, MONTH = 2, DAY = 3, HOUR = 4`, so under the implemented comparison
`YEAR > MONTH` is already false (`1 > 2` fails), refuting the chain. -/
theorem C2_counterexample :
    ¬ (Frequency.gtb Frequency.YEAR Frequency.MONTH = true ∧
       Frequency.gtb Frequency.MONTH Frequency.DAY = true ∧
       Frequency.gtb Frequency.DAY Frequency.HOUR = true) := by
  decide

/-- C2 (amended): the comparison operators order the `Frequency` members by
specificity with `YEAR` coarsest and *least*: under the implemented integer
comparison `YEAR < MONTH < DAY < HOUR`, and `a > b` holds exactly when
`b < a`. -/
theorem C2_frequency_ordering :
    Frequency.ltb Frequency.YEAR Frequency.MONTH = true ∧
    Frequency.ltb Frequency.MONTH Frequency.DAY = true ∧
    Frequency.ltb Frequency.DAY Frequency.HOUR = true ∧
    ∀ a b : Frequency, Frequency.gtb a b = Frequency.ltb b a := by
  refine ⟨rfl, rfl, rfl, ?_⟩
  intro a b
  cases a <;> cases b <;> rfl

/-! ### Claim C5: construction invariant violations -/

/-- C5 (counterexample): the claim says invariant violations at
`DatasetConfig` construction raise `ConfigError`.  No class of that name
exists in the source: constructing with an empty variable list raises
`DataSetError("No variables requested")`, which is not a `ConfigError`. -/
theorem C5_counterexample :
    datasetConfigInit [] [] Frequency.DAY Frequency.YEAR
        [Frequency.DAY, Frequency.MONTH] =
      .error (.DataSetError "No variables requested") ∧
    ¬ ∃ msg, datasetConfigInit [] [] Frequency.DAY Frequency.YEAR
        [Frequency.DAY, Frequency.MONTH] = .error (.ConfigError msg) := by
  constructor
  · rfl
  · rintro ⟨msg, hmsg⟩
    rw [show datasetConfigInit [] [] Frequency.DAY Frequency.YEAR
        [Frequency.DAY, Frequency.MONTH] =
        .error (.DataSetError "No variables requested") from rfl] at hmsg
    simp at hmsg

/-- C5 (amended): every invariant violation at Catalog (`DatasetConfig`)
construction — variable/level list length mismatch, output grouping frequency
finer than storage frequency, or an empty variable list — raises
`DataSetError` (the toolbox's own error class; the source defines no
`ConfigError`). -/
theorem C5_construction_raises (var_names : List String)
    (levels : List (Option (List Int))) (frequency output_group_by : Frequency)
    (valid_frequencies : List Frequency)
    (h : var_names = [] ∨ levels.length ≠ var_names.length ∨
      Frequency.ltb frequency output_group_by = true) :
    ∃ msg, datasetConfigInit var_names levels frequency output_group_by
      valid_frequencies = .error (.DataSetError msg) := by
  unfold datasetConfigInit
  by_cases h1 : var_names.length < 1
  · exact ⟨_, by rw [if_pos h1]⟩
  · rw [if_neg h1]
    by_cases h2 : levels.length ≠ var_names.length
    · exact ⟨_, by rw [if_pos h2]⟩
    · rw [if_neg h2]
      by_cases h3 : Frequency.ltb frequency output_group_by = true
      · exact ⟨_, by rw [if_pos h3]⟩
      · exfalso
        rcases h with h | h | h
        · exact h1 (by simp [h])
        · exact h2 h
        · exact h3 h

/-- Witness for `C5_construction_raises`: a level list of length 2 against a
single variable violates the length invariant and raises `DataSetError`. -/
theorem C5_construction_raises_witness :
    ∃ msg, datasetConfigInit ["tas"] [none, none] Frequency.DAY Frequency.YEAR
      [Frequency.DAY, Frequency.MONTH] = .error (.DataSetError msg) :=
  C5_construction_raises ["tas"] [none, none] Frequency.DAY Frequency.YEAR
    [Frequency.DAY, Frequency.MONTH] (Or.inr (Or.inl (by decide)))

/-! ### Claim C6: per-unit failure isolation in the threaded orchestrator -/

theorem threaded_collect_sound (results : List UnitResult) (files0 : List String) :
    ∃ files, threaded_download_collect results files0 = .ok files ∧
      (∀ f ∈ files0, f ∈ files) ∧
      ∀ (j : Nat) (fs : List String),
        results[j]? = some (Except.ok (some fs)) → ∀ f ∈ fs, f ∈ files := by
  induction results generalizing files0 with
  | nil => exact ⟨files0, rfl, fun f hf => hf, by simp⟩
  | cons r rest ih =>
    obtain ⟨files, hck, hinit, hunits⟩ :=
      ih (match r with
          | .ok (some fd) => files0 ++ fd
          | .ok none => files0
          | .error _ => files0)
    refine ⟨files, hck, ?_, ?_⟩
    · intro f hf
      apply hinit
      rcases r with e | o
      · exact hf
      · rcases o with - | fd
        · exact hf
        · exact List.mem_append_left _ hf
    · intro j fs hj f hf
      cases j with
      | zero =>
        simp only [List.getElem?_cons_zero, Option.some_inj] at hj
        subst hj
        exact hinit f (List.mem_append_right _ hf)
      | succ j =>
        simp only [List.getElem?_cons_succ] at hj
        exact hunits j fs hj f hf

/-- C6: if one dispatched unit's fetch raises, the collection loop of
`ThreadedDownloader.download` still completes normally (the exception is
caught inside the loop) and `files_downloaded` contains every path returned by
every non-raising unit. -/
theorem C6_orchestration_isolation (results : List UnitResult)
    (files0 : List String) (k : Nat) (e : String)
    (_hk : results[k]? = some (Except.error e)) :
    ∃ files, threaded_download_collect results files0 = .ok files ∧
      ∀ (j : Nat) (fs : List String),
        results[j]? = some (Except.ok (some fs)) → ∀ f ∈ fs, f ∈ files := by
  obtain ⟨files, h1, -, h3⟩ := threaded_collect_sound results files0
  exact ⟨files, h1, h3⟩

/-- Witness for `C6_orchestration_isolation`: two units, the first raising. -/
theorem C6_orchestration_isolation_witness :
    ∃ files,
      threaded_download_collect [Except.error "boom", Except.ok (some ["a.nc"])] [] =
        .ok files ∧
      ∀ (j : Nat) (fs : List String),
        [Except.error "boom",
          Except.ok (some ["a.nc"])][j]? = some (Except.ok (some fs)) →
        ∀ f ∈ fs, f ∈ files :=
  C6_orchestration_isolation [Except.error "boom", Except.ok (some ["a.nc"])] []
    0 "boom" rfl

/-! ### Claim C10: the batching loop consumes all dates -/

theorem batchLoop_fst (attr : Nat → Nat) (dates batch : List Nat)
    (acc : List (List Nat)) : (batchLoop attr dates batch acc).1 = [] := by
  induction dates, batch, acc using batchLoop.induct attr with
  | case1 batch acc => rw [batchLoop]
  | case2 d rest acc ih => rw [batchLoop]; exact ih
  | case3 d rest b bs acc h ih => rw [batchLoop, if_pos h]; exact ih
  | case4 d rest b bs acc h ih => rw [batchLoop, if_neg h]; exact ih

/-- C10: the `while` loop of `batch_requested_dates` always drains the whole
deque, so the trailing branch raising `RuntimeError("Batching didn't work!")`
is unreachable and the function always returns a batching. -/
theorem C10_batching_never_raises (attr : Nat → Nat) (dates : List Nat) :
    ∃ bs, batch_requested_dates attr dates = .ok bs := by
  unfold batch_requested_dates
  rcases hb : batchLoop attr (sortByKey id dates) [] [] with ⟨rem, b, acc⟩
  have hrem : rem = [] := by
    have h := batchLoop_fst attr (sortByKey id dates) [] []
    rw [hb] at h
    exact h
  subst hrem
  refine ⟨if b.length ≠ 0 then acc ++ [b.reverse] else acc, ?_⟩
  simp [batch_requested_dates, hb]

/-! ### Claim C4: batching completeness and contiguity -/

theorem batchLoop_flatten (attr : Nat → Nat) (dates batch : List Nat)
    (acc : List (List Nat)) :
    (batchLoop attr dates batch acc).2.2.flatten ++
        (batchLoop attr dates batch acc).2.1.reverse =
      acc.flatten ++ batch.reverse ++ dates := by
  induction dates, batch, acc using batchLoop.induct attr with
  | case1 batch acc => rw [batchLoop]; simp
  | case2 d rest acc ih => rw [batchLoop]; rw [ih]; simp
  | case3 d rest b bs acc h ih => rw [batchLoop, if_pos h]; rw [ih]; simp
  | case4 d rest b bs acc h ih => rw [batchLoop, if_neg h]; rw [ih]; simp

theorem batchLoop_batches_good (attr : Nat → Nat) (dates batch : List Nat)
    (acc : List (List Nat))
    (hacc : ∀ b ∈ acc, b ≠ [] ∧ ∀ x ∈ b, ∀ y ∈ b, attr x = attr y)
    (hbatch : ∀ x ∈ batch, ∀ y ∈ batch, attr x = attr y) :
    (∀ b ∈ (batchLoop attr dates batch acc).2.2,
        b ≠ [] ∧ ∀ x ∈ b, ∀ y ∈ b, attr x = attr y) ∧
      ∀ x ∈ (batchLoop attr dates batch acc).2.1,
        ∀ y ∈ (batchLoop attr dates batch acc).2.1, attr x = attr y := by
  induction dates, batch, acc using batchLoop.induct attr with
  | case1 batch acc =>
    rw [batchLoop]
    exact ⟨hacc, hbatch⟩
  | case2 d rest acc ih =>
    rw [batchLoop]
    refine ih hacc ?_
    intro x hx y hy
    rcases List.mem_singleton.mp hx with rfl
    rcases List.mem_singleton.mp hy with rfl
    rfl
  | case3 d rest b bs acc h ih =>
    rw [batchLoop, if_pos h]
    refine ih hacc ?_
    intro x hx y hy
    have hval : ∀ z ∈ d :: b :: bs, attr z = attr b := by
      intro z hz
      rcases List.mem_cons.mp hz with rfl | hz
      · exact h.symm
      · exact hbatch z hz b (List.mem_cons_self b bs)
    rw [hval x hx, hval y hy]
  | case4 d rest b bs acc h ih =>
    rw [batchLoop, if_neg h]
    refine ih ?_ (by simp)
    intro c hc
    rcases List.mem_append.mp hc with hc | hc
    · exact hacc c hc
    · rcases List.mem_singleton.mp hc with rfl
      refine ⟨by simp, ?_⟩
      intro x hx y hy
      exact hbatch x (List.mem_reverse.mp hx) y (List.mem_reverse.mp hy)

/-- C4: `batch_requested_dates` succeeds, the concatenation of its batches is
a permutation of the input dates (equality as multisets), every batch is
non-empty with all members agreeing on the grouping attribute (hence
consecutive sorted dates in a batch agree on it), and the batch list is
non-empty whenever the input is. -/
theorem C4_batching_completeness (attr : Nat → Nat) (dates : List Nat) :
    ∃ bs, batch_requested_dates attr dates = .ok bs ∧
      bs.flatten.Perm dates ∧
      (∀ b ∈ bs, b ≠ [] ∧ b.Pairwise (fun x y => attr x = attr y)) ∧
      (dates ≠ [] → bs ≠ []) := by
  rcases hb : batchLoop attr (sortByKey id dates) [] [] with ⟨rem, b, acc⟩
  have hrem : rem = [] := by
    have h := batchLoop_fst attr (sortByKey id dates) [] []
    rw [hb] at h
    exact h
  subst hrem
  have hflat := batchLoop_flatten attr (sortByKey id dates) [] []
  rw [hb] at hflat
  simp only [List.flatten_nil, List.reverse_nil, List.nil_append, List.append_nil] at hflat
  have hgood := batchLoop_batches_good attr (sortByKey id dates) [] []
    (by simp) (by simp)
  rw [hb] at hgood
  obtain ⟨hgacc, hgb⟩ := hgood
  have hperm : (acc.flatten ++ b.reverse).Perm dates := by
    rw [hflat]
    exact sortByKey_perm id dates
  by_cases hbe : b = []
  · subst hbe
    refine ⟨acc, by simp [batch_requested_dates, hb], by simpa using hperm, ?_, ?_⟩
    · intro c hc
      obtain ⟨hne, hall⟩ := hgacc c hc
      exact ⟨hne, List.pairwise_of_forall_mem_list hall⟩
    · intro hne hnil
      apply hne
      subst hnil
      simpa using hperm.symm.eq_nil
  · refine ⟨acc ++ [b.reverse], by simp [batch_requested_dates, hb, hbe],
      by simpa using hperm, ?_, ?_⟩
    · intro c hc
      rcases List.mem_append.mp hc with hc | hc
      · obtain ⟨hne, hall⟩ := hgacc c hc
        exact ⟨hne, List.pairwise_of_forall_mem_list hall⟩
      · rcases List.mem_singleton.mp hc with rfl
        refine ⟨fun hnil => hbe (List.reverse_eq_nil_iff.mp hnil), ?_⟩
        refine List.pairwise_of_forall_mem_list ?_
        intro x hx y hy
        exact hgb x (List.mem_reverse.mp hx) y (List.mem_reverse.mp hy)
    · intro _ hnil
      simpa using congrArg List.length hnil

/-- Witness for `C4_batching_completeness` on a concrete date list grouped by
tens. -/
theorem C4_batching_completeness_witness :
    ∃ bs, batch_requested_dates (fun d => d / 10) [12, 3, 25, 11] = .ok bs ∧
      bs.flatten.Perm [12, 3, 25, 11] ∧
      (∀ b ∈ bs, b ≠ [] ∧ b.Pairwise (fun x y => x / 10 = y / 10)) ∧
      ([12, 3, 25, 11] ≠ ([] : List Nat) → bs ≠ []) :=
  C4_batching_completeness (fun d => d / 10) [12, 3, 25, 11]

/-! ### Characterization of `filter_extant_data` -/

/-- The candidate canonical paths computed by `var_filepaths` for the
descending-sorted dates. -/
def candidatePaths (pathOf : Nat → Nat) (dates : List Nat) : List Nat :=
  (((sortByKey id dates).reverse).map pathOf).dedup

/-- The candidate paths that exist on the filesystem (`extant_paths`). -/
def extantPaths (pathOf : Nat → Nat) (fs : Nat → Option (List Nat))
    (dates : List Nat) : List Nat :=
  ((candidatePaths pathOf dates).filter (fun p => (fs p).isSome)).dedup

/-- The union of the time coordinates of the extant files (`exclude_dates`). -/
def excludeDates (pathOf : Nat → Nat) (fs : Nat → Option (List Nat))
    (dates : List Nat) : List Nat :=
  ((extantPaths pathOf fs dates).map (fun p => (fs p).getD [])).flatten

/-- The date list returned by `filter_extant_data`, as a pure function of the
filesystem and the input dates (the inventory state does not influence it). -/
def filterDates (pathOf : Nat → Nat) (fs : Nat → Option (List Nat))
    (dates : List Nat) : List Nat :=
  if (extantPaths pathOf fs dates).length > 0 then
    (sortByKey id ((((sortByKey id dates).reverse).dedup).filter
      (fun d => d ∉ excludeDates pathOf fs dates))).reverse
  else
    (sortByKey id dates).reverse

theorem var_filepaths_snd (pathOf : Nat → Nat) (m : VarFiles) (name : String)
    (batch : List Nat) :
    (var_filepaths pathOf m name batch).2 = (batch.map pathOf).dedup := rfl

theorem filter_extant_data_fst (pathOf : Nat → Nat)
    (fs : Nat → Option (List Nat)) (var_files : VarFiles) (name : String)
    (dates : List Nat) :
    (filter_extant_data pathOf fs var_files name dates).1 =
      (var_filepaths pathOf var_files name ((sortByKey id dates).reverse)).1 := by
  unfold filter_extant_data
  rcases h : var_filepaths pathOf var_files name ((sortByKey id dates).reverse)
    with ⟨vf, fps⟩
  simp only [h]
  split <;> rfl

theorem filter_extant_data_snd (pathOf : Nat → Nat)
    (fs : Nat → Option (List Nat)) (var_files : VarFiles) (name : String)
    (dates : List Nat) :
    (filter_extant_data pathOf fs var_files name dates).2 =
      filterDates pathOf fs dates := by
  unfold filter_extant_data filterDates
  rcases h : var_filepaths pathOf var_files name ((sortByKey id dates).reverse)
    with ⟨vf, fps⟩
  have hfps : fps = (((sortByKey id dates).reverse).map pathOf).dedup := by
    have h2 := congrArg Prod.snd h
    rw [var_filepaths_snd] at h2
    exact h2.symm
  subst hfps
  simp only [h]
  by_cases hc : (extantPaths pathOf fs dates).length > 0
  · rw [if_pos, if_pos hc]
    · rfl
    · exact hc
  · rw [if_neg, if_neg hc]
    exact hc

/-! ### Claim C3: the planning phase and the inventory -/

theorem varFilesGet_set_self (name : String) (v : List Nat) (m : VarFiles) :
    varFilesGet name (varFilesSet name v m) = some v := by
  induction m with
  | nil => simp [varFilesGet, varFilesSet]
  | cons kv rest ih =>
    rcases kv with ⟨k, w⟩
    by_cases hk : k = name
    · simp [varFilesGet, varFilesSet, hk]
    · simp [varFilesGet, varFilesSet, hk, ih]

theorem varFilesGet_set_other {n name : String} (h : n ≠ name) (v : List Nat)
    (m : VarFiles) : varFilesGet n (varFilesSet name v m) = varFilesGet n m := by
  have hsym : name ≠ n := Ne.symm h
  induction m with
  | nil => simp [varFilesGet, varFilesSet, hsym]
  | cons kv rest ih =>
    rcases kv with ⟨k, w⟩
    by_cases hk : k = name
    · subst hk
      simp [varFilesGet, varFilesSet, hsym]
    · simp only [varFilesSet, if_neg hk, varFilesGet]
      split
      · rfl
      · exact ih

theorem varFilesGet_var_filepaths (pathOf : Nat → Nat) (m : VarFiles)
    (name : String) (batch : List Nat) (n : String) (ps : List Nat) (p : Nat)
    (h1 : varFilesGet n m = some ps) (h2 : p ∈ ps) :
    ∃ ps', varFilesGet n (var_filepaths pathOf m name batch).1 = some ps' ∧
      p ∈ ps' := by
  unfold var_filepaths
  by_cases hn : n = name
  · subst hn
    simp only [h1]
    exact ⟨_, varFilesGet_set_self _ _ _,
      List.mem_dedup.mpr (List.mem_append_left _ h2)⟩
  · cases hm : varFilesGet name m
    · simp only [hm]
      exact ⟨ps, by rw [varFilesGet_set_other hn, h1], h2⟩
    · simp only [hm]
      exact ⟨ps, by rw [varFilesGet_set_other hn, h1], h2⟩

/-- C3 (counterexample): the claim says the inventory map is unchanged by
`filter_extant_data`.  Starting from an empty inventory and requesting date
`0` records the candidate canonical path under the slot's name, so the
inventory does change during the pre-dispatch planning phase. -/
theorem C3_counterexample :
    (filter_extant_data (fun d => d) (fun _ => none) [] "tas" [0]).1 =
        [("tas", [0])] ∧
      [("tas", [0])] ≠ ([] : VarFiles) := by
  exact ⟨rfl, by simp⟩

/-- C3 (amended): `filter_extant_data` *does* mutate the inventory map — via
`var_filepaths` it inserts the slot's candidate canonical paths — but it never
removes anything: every path recorded under any name before the call is still
recorded under that name afterwards. -/
theorem C3_filter_preserves_recorded (pathOf : Nat → Nat)
    (fs : Nat → Option (List Nat)) (var_files : VarFiles) (name : String)
    (dates : List Nat) (n : String) (ps : List Nat) (p : Nat)
    (h1 : varFilesGet n var_files = some ps) (h2 : p ∈ ps) :
    ∃ ps', varFilesGet n
        (filter_extant_data pathOf fs var_files name dates).1 = some ps' ∧
      p ∈ ps' := by
  rw [filter_extant_data_fst]
  exact varFilesGet_var_filepaths pathOf var_files name _ n ps p h1 h2

/-- Witness for `C3_filter_preserves_recorded`: a previously recorded path
survives the planning phase. -/
theorem C3_filter_preserves_recorded_witness :
    ∃ ps', varFilesGet "tas"
        (filter_extant_data (fun d => d) (fun _ => none) [("tas", [7])] "tas"
          [0]).1 = some ps' ∧ 7 ∈ ps' :=
  C3_filter_preserves_recorded (fun d => d) (fun _ => none) [("tas", [7])]
    "tas" [0] "tas" [7] 7 rfl (by decide)

/-! ### Claim C7: the extant-data filter contract -/

theorem sortByKey_id_of_desc {l : List Nat} (h : l.Pairwise (fun a b => b ≤ a)) :
    sortByKey id l = l.reverse :=
  sortByKey_id_eq_of_sorted (l.reverse_perm).symm (List.pairwise_reverse.mpr h)

theorem mem_candidatePaths {pathOf : Nat → Nat} {dates : List Nat} {p : Nat} :
    p ∈ candidatePaths pathOf dates ↔ p ∈ dates.map pathOf := by
  unfold candidatePaths
  simp [List.mem_dedup, List.mem_map, mem_sortByKey]

theorem mem_extantPaths {pathOf : Nat → Nat} {fs : Nat → Option (List Nat)}
    {dates : List Nat} {p : Nat} :
    p ∈ extantPaths pathOf fs dates ↔
      p ∈ dates.map pathOf ∧ (fs p).isSome := by
  unfold extantPaths
  simp [List.mem_dedup, List.mem_filter, mem_candidatePaths]

theorem not_mem_excludeDates {pathOf : Nat → Nat} {fs : Nat → Option (List Nat)}
    {dates : List Nat} {d : Nat} :
    d ∉ excludeDates pathOf fs dates ↔
      ∀ p ∈ dates.map pathOf, ∀ ts, fs p = some ts → d ∉ ts := by
  unfold excludeDates
  constructor
  · intro h p hp ts hts hd
    apply h
    rw [List.mem_flatten]
    refine ⟨ts, List.mem_map.mpr ⟨p, mem_extantPaths.mpr ⟨hp, by rw [hts]; rfl⟩,
      by rw [hts]; rfl⟩, hd⟩
  · intro h hmem
    rw [List.mem_flatten] at hmem
    obtain ⟨x, hx, hdx⟩ := hmem
    obtain ⟨p, hpe, rfl⟩ := List.mem_map.mp hx
    obtain ⟨hp, hiso⟩ := mem_extantPaths.mp hpe
    obtain ⟨ts, hts⟩ := Option.isSome_iff_exists.mp hiso
    refine h p hp ts hts ?_
    rwa [hts] at hdx

theorem mem_filterDates {pathOf : Nat → Nat} {fs : Nat → Option (List Nat)}
    {dates : List Nat} {d : Nat} :
    d ∈ filterDates pathOf fs dates ↔
      (d ∈ dates ∧ ∀ p ∈ dates.map pathOf, ∀ ts, fs p = some ts → d ∉ ts) := by
  unfold filterDates
  by_cases hc : (extantPaths pathOf fs dates).length > 0
  · rw [if_pos hc, List.mem_reverse, mem_sortByKey, List.mem_filter]
    simp only [List.mem_dedup, List.mem_reverse, mem_sortByKey, decide_eq_true_eq]
    exact and_congr Iff.rfl not_mem_excludeDates
  · rw [if_neg hc, List.mem_reverse, mem_sortByKey]
    constructor
    · intro hd
      refine ⟨hd, fun p hp ts hts => ?_⟩
      exfalso
      apply hc
      have hmem : p ∈ extantPaths pathOf fs dates :=
        mem_extantPaths.mpr ⟨hp, by rw [hts]; rfl⟩
      exact List.length_pos.mpr (List.ne_nil_of_mem hmem)
    · exact fun h => h.1

theorem filterDates_noop {pathOf : Nat → Nat} {fs : Nat → Option (List Nat)}
    {dates : List Nat} (h : ∀ p ∈ dates.map pathOf, fs p = none) :
    filterDates pathOf fs dates = (sortByKey id dates).reverse := by
  unfold filterDates
  rw [if_neg]
  intro hc
  obtain ⟨p, hp⟩ := List.exists_mem_of_length_pos hc
  obtain ⟨hpm, hiso⟩ := mem_extantPaths.mp hp
  rw [h p hpm] at hiso
  simp at hiso

theorem filterDates_desc (pathOf : Nat → Nat) (fs : Nat → Option (List Nat))
    (dates : List Nat) :
    (filterDates pathOf fs dates).Pairwise (fun a b => b ≤ a) := by
  unfold filterDates
  split
  · exact List.pairwise_reverse.mpr (sortByKey_id_pairwise _)
  · exact List.pairwise_reverse.mpr (sortByKey_id_pairwise _)

/-- C7: `filter_extant_data` returns exactly the input dates that are not
covered by the time values of any existing candidate canonical file, sorted
descending; and when no candidate file exists it returns the input dates
sorted descending, unchanged. -/
theorem C7_filter_extant_contract (pathOf : Nat → Nat)
    (fs : Nat → Option (List Nat)) (var_files : VarFiles) (name : String)
    (dates : List Nat) :
    ((filter_extant_data pathOf fs var_files name dates).2).Pairwise
        (fun a b => b ≤ a) ∧
      (∀ d, d ∈ (filter_extant_data pathOf fs var_files name dates).2 ↔
        (d ∈ dates ∧ ∀ p ∈ dates.map pathOf, ∀ ts, fs p = some ts → d ∉ ts)) ∧
      ((∀ p ∈ dates.map pathOf, fs p = none) →
        (filter_extant_data pathOf fs var_files name dates).2 =
          (sortByKey id dates).reverse) := by
  rw [filter_extant_data_snd]
  exact ⟨filterDates_desc _ _ _, fun d => mem_filterDates,
    fun h => filterDates_noop h⟩

/-- Witness for `C7_filter_extant_contract`: one extant file covering date 11
among requested dates `[3, 12, 11]`. -/
theorem C7_filter_extant_contract_witness :
    ((filter_extant_data (fun d => d / 10)
          (fun p => if p = 1 then some [11] else none) [] "tas"
          [3, 12, 11]).2).Pairwise (fun a b => b ≤ a) ∧
      (∀ d, d ∈ (filter_extant_data (fun d => d / 10)
          (fun p => if p = 1 then some [11] else none) [] "tas"
          [3, 12, 11]).2 ↔
        (d ∈ [3, 12, 11] ∧ ∀ p ∈ [3, 12, 11].map (fun d => d / 10), ∀ ts,
          (if p = 1 then some [11] else none) = some ts → d ∉ ts)) ∧
      ((∀ p ∈ [3, 12, 11].map (fun d => d / 10),
          (if p = 1 then some [11] else none) = none) →
        (filter_extant_data (fun d => d / 10)
            (fun p => if p = 1 then some [11] else none) [] "tas"
            [3, 12, 11]).2 = (sortByKey id [3, 12, 11]).reverse) :=
  C7_filter_extant_contract (fun d => d / 10)
    (fun p => if p = 1 then some [11] else none) [] "tas" [3, 12, 11]

/-! ### Claim C8: filter idempotence -/

theorem filterDates_subset {pathOf : Nat → Nat} {fs : Nat → Option (List Nat)}
    {dates : List Nat} {d : Nat} (hd : d ∈ filterDates pathOf fs dates) :
    d ∈ dates :=
  (mem_filterDates.mp hd).1

theorem filterDates_idempotent (pathOf : Nat → Nat)
    (fs : Nat → Option (List Nat)) (dates : List Nat) :
    filterDates pathOf fs (filterDates pathOf fs dates) =
      filterDates pathOf fs dates := by
  set D := filterDates pathOf fs dates with hD
  have hdesc : D.Pairwise (fun a b => b ≤ a) := hD ▸ filterDates_desc _ _ _
  have hsort : sortByKey id D = D.reverse := sortByKey_id_of_desc hdesc
  rw [filterDates, hsort, List.reverse_reverse]
  by_cases hc2 : (extantPaths pathOf fs D).length > 0
  · rw [if_pos hc2]
    have hsub : ∀ d ∈ D, d ∈ dates := fun d hd =>
      filterDates_subset (hD ▸ hd)
    have hE : ∀ d ∈ D, ∀ p ∈ dates.map pathOf, ∀ ts, fs p = some ts → d ∉ ts :=
      fun d hd => (mem_filterDates.mp (hD ▸ hd)).2
    have hnd : D.Nodup := by
      obtain ⟨p, hp⟩ := List.exists_mem_of_length_pos hc2
      obtain ⟨hpm, hiso⟩ := mem_extantPaths.mp hp
      obtain ⟨d0, hd0, rfl⟩ := List.mem_map.mp hpm
      have hp1 : pathOf d0 ∈ dates.map pathOf :=
        List.mem_map.mpr ⟨d0, hsub d0 hd0, rfl⟩
      have hc1 : (extantPaths pathOf fs dates).length > 0 :=
        List.length_pos.mpr
          (List.ne_nil_of_mem (mem_extantPaths.mpr ⟨hp1, hiso⟩))
      rw [hD, filterDates, if_pos hc1]
      rw [List.nodup_reverse]
      exact ((sortByKey_perm id _).nodup_iff).mpr
        ((List.nodup_dedup _).filter _)
    have hdedup : D.dedup = D := List.dedup_eq_self.mpr hnd
    have hfilter :
        D.filter (fun d => d ∉ excludeDates pathOf fs D) = D := by
      rw [List.filter_eq_self]
      intro d hd
      rw [decide_eq_true_eq, not_mem_excludeDates]
      intro p hp ts hts
      obtain ⟨d0, hd0, rfl⟩ := List.mem_map.mp hp
      exact hE d hd (pathOf d0) (List.mem_map.mpr ⟨d0, hsub d0 hd0, rfl⟩) ts hts
    rw [hdedup, hfilter, hsort, List.reverse_reverse]
  · rw [if_neg hc2]

/-- C8: re-running `filter_extant_data` on its own output, with no files
created or removed in between, returns that output unchanged. -/
theorem C8_filter_idempotent (pathOf : Nat → Nat)
    (fs : Nat → Option (List Nat)) (var_files : VarFiles) (name : String)
    (dates : List Nat) :
    (filter_extant_data pathOf fs
        (filter_extant_data pathOf fs var_files name dates).1 name
        (filter_extant_data pathOf fs var_files name dates).2).2 =
      (filter_extant_data pathOf fs var_files name dates).2 := by
  rw [filter_extant_data_snd, filter_extant_data_snd, filterDates_idempotent]

end DownloadToolbox
